import Mathlib

/-!
A Lean model of the media-source synchronization engine of bun-boo-server.

The definitions below are a shallow embedding of the TypeScript source:

* path/string helpers mirror `src/utils/PathUtils.ts` and the node `path`
  functions (`extname`, `basename`) as used by the program, restricted to the
  forward-slash-normalized paths the program guarantees;
* `MediaFile`, `MetaData` and the `MetaDataDB` operations mirror
  `src/data/MediaFile.ts` and `src/data/MetaDataDB.ts` (the SQL statements are
  modelled row-by-row; the `updated_at` trigger fires on every UPDATE);
* `MediaSource.handleFileChange` and `MediaSource.processRawFile` mirror
  `src/data/MediaSource.ts` (the definitive, typed-event version);
* `MediaFileManager.*` mirrors `src/data/MediaFileManager.ts`;
* `ComparableFileList` and the `CloudWatcher` scan step mirror
  `src/data/ComparableFileList.ts` and `src/watcher/CloudWatcher.ts`.

External effects (stat, ffprobe, ffmpeg, copy) are modelled by a `World`
oracle; each handler returns the mutations it performed (files map, emitted
events, `feedbackCreationError` calls, writes).
-/

namespace BooServer

/-! ### String and path helpers (PathUtils / node path) -/

/-- JavaScript `String.prototype.toLowerCase`, for the ASCII strings
(extensions) the program applies it to. -/
def String.toLowerCase (s : String) : String :=
  String.mk (s.data.map Char.toLower)

/-- Split a character list at `'/'` separators. -/
def splitSegsAux : List Char → List Char → List String
  | [], acc => [String.mk acc.reverse]
  | c :: rest, acc =>
    if c = '/' then String.mk acc.reverse :: splitSegsAux rest [] else splitSegsAux rest (c :: acc)

/-- The `'/'`-separated segments of a forward-slash-normalized path. -/
def splitSegs (s : String) : List String :=
  splitSegsAux s.data []

/-- Join path segments with `'/'`. -/
def joinSegs : List String → String
  | [] => ""
  | [s] => s
  | s :: rest => s ++ "/" ++ joinSegs rest

/-- `join_path` of PathUtils, on a normalized base and relative part. -/
def join_path (base rel : String) : String :=
  base ++ "/" ++ rel

/-- `relative_path` of PathUtils. The program only applies it with `basePath`
an ancestor of `fullPath` (watcher roots and files under them), where node's
`path.relative` drops the base prefix; that case is modelled here. -/
def relative_path (basePath fullPath : String) : String :=
  let b := splitSegs basePath
  let f := splitSegs fullPath
  if b.isPrefixOf f then joinSegs (f.drop b.length) else fullPath

/-- `dirname_path` of PathUtils (node `path.dirname` on a normalized path). -/
def dirname_path (p : String) : String :=
  let segs := splitSegs p
  if segs.length ≤ 1 then "." else joinSegs segs.dropLast

/-- node `path.basename` (no extension argument): the last segment. -/
def basename (p : String) : String :=
  (splitSegs p).getLastD p

/-- node `path.extname`: the suffix of the basename from its last `'.'`,
empty when there is no dot or the dot is the basename's first character. -/
def extname (p : String) : String :=
  let b := (basename p).data
  let pre := b.reverse.takeWhile (fun c => c ≠ '.')
  if pre.length + 1 < b.length then String.mk ('.' :: pre.reverse) else ""

/-! ### Accepted extensions (MediaSource.ts) -/

/-- The acceptable extension list of `MediaSource.ts`. -/
def acceptableExtensions : List String :=
  [".mp4", ".mp3", ".jpeg", ".jpg", ".png"]

/-- `isAcceptableExtension` of `MediaSource.ts`: exact membership in the
(lower-case) list. -/
def isAcceptableExtension (ext : String) : Bool :=
  acceptableExtensions.contains ext

/-! ### Events -/

/-- The `changeType` values of `FileChangeEvent` (PathWatcher.ts). -/
inductive ChangeType
  | Created
  | Changed
  | Deleted
  | Renamed
deriving DecidableEq

/-- `FileChangeEvent` / `FileRenameEvent` of `PathWatcher.ts`; the `old`
fields default to `""` for the non-rename shapes. -/
structure FileChangeEvent where
  changeType : ChangeType
  name : String
  fullPath : String
  oldName : String := ""
  oldFullPath : String := ""
deriving DecidableEq

/-! ### MediaFile (MediaFile.ts) -/

/-- `MediaFile`: `duration` is the ffprobe-derived value for `.mp4`/`.mp3`
and `0` otherwise (the `duration` getter maps the unset field to `0`). -/
structure MediaFile where
  path : String
  ext : String
  title : String
  category : String
  length : Nat
  date : Nat
  duration : Nat
deriving DecidableEq

/-- `IFileEvent` / `IFileRenameEvent` of `MediaSource.ts`: what a MediaSource
emits to the manager. `oldFullPath` defaults to `""` except for renames. -/
structure IFileEvent where
  changeType : ChangeType
  file : MediaFile
  oldFullPath : String := ""
deriving DecidableEq

/-! ### The external world

Filesystem and child-process effects, read by the handlers. `statSize` is
`stat` (size and mtime in ms), `none` when it throws; `probeDuration` is
ffprobe's `format.duration`, `none` when probing fails; `pathExists` is the
existence check of `processRawFile`; `convertOk` is
`MediaConvert.convert`. -/
structure World where
  statSize : String → Option (Nat × Nat)
  probeDuration : String → Option Nat
  pathExists : String → Bool
  convertOk : String → String → Bool

/-- `MediaFile.create`: for `.mp4`/`.mp3` the duration is derived via
ffprobe and a probe failure aborts creation; other extensions never probe. -/
def MediaFile.create (w : World) (path ext title category : String)
    (size mtime : Nat) : Option MediaFile :=
  if ext = ".mp4" ∨ ext = ".mp3" then
    match w.probeDuration path with
    | some d => some ⟨path, ext, title, category, size, mtime, d⟩
    | none => none
  else
    some ⟨path, ext, title, category, size, mtime, 0⟩

/-! ### MetaData rows and MetaDataDB (MetaDataDB.ts)

The store is the list of rows of the `metadata` table. `now` stands for
`CURRENT_TIMESTAMP`; the `update_metadata_timestamp` trigger sets
`updated_at` on every UPDATE. -/

/-- A row of the `metadata` table. -/
structure MetaData where
  id : Nat := 0
  path : String
  ext : String
  title : String
  category : String
  length : Nat
  date : Nat
  duration : Nat
  label : String
  description : String
  mark : Nat
  rating : Nat
  flag : Nat
  option : String
  created_at : Nat := 0
  updated_at : Nat := 0
deriving DecidableEq

/-- The next AUTOINCREMENT id. -/
def MetaDataDB.nextId (rows : List MetaData) : Nat :=
  (rows.map (fun r => r.id)).foldl max 0 + 1

/-- `MetaDataDB.upsert`: INSERT, or on `path` conflict UPDATE every one of
the thirteen bound columns (`ext` through `option`) with the supplied
values; the update trigger bumps `updated_at`. The caller's `id`,
`created_at` and `updated_at` are not bound by the statement. -/
def MetaDataDB.upsert (now : Nat) (m : MetaData) (rows : List MetaData) : List MetaData :=
  if rows.any (fun r => r.path = m.path) then
    rows.map (fun r =>
      if r.path = m.path then
        { r with ext := m.ext, title := m.title, category := m.category,
                 length := m.length, date := m.date, duration := m.duration,
                 label := m.label, description := m.description,
                 mark := m.mark, rating := m.rating, flag := m.flag,
                 option := m.option, updated_at := now }
      else r)
  else
    rows ++ [{ m with id := MetaDataDB.nextId rows, created_at := now, updated_at := now }]

/-- `MetaDataDB.delete`. -/
def MetaDataDB.delete (path : String) (rows : List MetaData) : List MetaData :=
  rows.filter (fun r => r.path ≠ path)

/-- `MetaDataDB.updatePath`: set `path` on the matching row; the update
trigger bumps `updated_at`. No other column (in particular `title`) changes. -/
def MetaDataDB.updatePath (now : Nat) (oldPath newPath : String)
    (rows : List MetaData) : List MetaData :=
  rows.map (fun r =>
    if r.path = oldPath then { r with path := newPath, updated_at := now } else r)

/-- `MetaDataDB.getByPath`. -/
def MetaDataDB.getByPath (path : String) (rows : List MetaData) : Option MetaData :=
  rows.find? (fun r => r.path = path)

/-! ### The per-source files map (JS `Map` keyed by absolute path) -/

/-- `Map.get`. -/
def mapGet (k : String) (m : List (String × MediaFile)) : Option MediaFile :=
  (m.find? (fun e => e.1 = k)).map (fun e => e.2)

/-- `Map.set`: update in place when the key exists, append otherwise. -/
def mapSet (k : String) (v : MediaFile) (m : List (String × MediaFile)) :
    List (String × MediaFile) :=
  if m.any (fun e => e.1 = k) then
    m.map (fun e => if e.1 = k then (k, v) else e)
  else
    m ++ [(k, v)]

/-- `Map.delete`. -/
def mapDelete (k : String) (m : List (String × MediaFile)) : List (String × MediaFile) :=
  m.filter (fun e => e.1 ≠ k)

/-! ### MediaSource (MediaSource.ts) -/

/-- The state of a `MediaSource` read by its handlers. -/
structure SourceState where
  path : String
  rawDataPath : Option String := none
  files : List (String × MediaFile)
deriving DecidableEq

/-- What a run of `handleFileChange` did: the resulting files map, the
`change` events emitted to the manager, and the
`watcher.feedbackCreationError` calls made. -/
structure HandlerResult where
  files : List (String × MediaFile)
  events : List IFileEvent
  feedback : List String
deriving DecidableEq

/-- The no-effect result (dropped or failed event). -/
def noChange (st : SourceState) : HandlerResult :=
  ⟨st.files, [], []⟩

/-- `MediaSource.handleFileChange` (primary watcher events). The extension
filter drops unacceptable paths, except that a rename whose old name has an
acceptable extension (matched on `extname` as-is, without lower-casing) is
promoted to `Deleted{oldFullPath}`. -/
def MediaSource.handleFileChange (w : World) (st : SourceState)
    (ev0 : FileChangeEvent) : HandlerResult :=
  let ext := String.toLowerCase (extname ev0.fullPath)
  let ev? : Option FileChangeEvent :=
    if isAcceptableExtension ext then some ev0
    else if ev0.changeType = ChangeType.Renamed ∧
            isAcceptableExtension (extname ev0.oldFullPath) then
      some { changeType := ChangeType.Deleted,
             name := basename ev0.oldFullPath,
             fullPath := ev0.oldFullPath }
    else none
  match ev? with
  | none => noChange st
  | some ev =>
    match ev.changeType with
    | ChangeType.Created | ChangeType.Changed =>
      let title := basename ev.fullPath
      match w.statSize ev.fullPath with
      | none => noChange st
      | some (size, mtime) =>
        let old := mapGet ev.fullPath st.files
        let changeType :=
          match old with
          | some _ => ChangeType.Changed
          | none => ChangeType.Created
        match old with
        | some o =>
          if o.length = size ∧ o.date = mtime then
            noChange st
          else
            let dir := dirname_path ev.fullPath
            let category := if dir = st.path then "ROOT" else relative_path st.path dir
            match MediaFile.create w ev.fullPath ext title category size mtime with
            | none => ⟨st.files, [], [ev.fullPath]⟩
            | some file =>
              ⟨mapSet ev.fullPath file st.files,
               [⟨changeType, file, ev.oldFullPath⟩], []⟩
        | none =>
          let dir := dirname_path ev.fullPath
          let category := if dir = st.path then "ROOT" else relative_path st.path dir
          match MediaFile.create w ev.fullPath ext title category size mtime with
          | none => ⟨st.files, [], [ev.fullPath]⟩
          | some file =>
            ⟨mapSet ev.fullPath file st.files,
             [⟨changeType, file, ev.oldFullPath⟩], []⟩
    | ChangeType.Deleted =>
      match mapGet ev.fullPath st.files with
      | some file =>
        ⟨mapDelete ev.fullPath st.files,
         [⟨ChangeType.Deleted, file, ev.oldFullPath⟩], []⟩
      | none => noChange st
    | ChangeType.Renamed =>
      match (st.files.map (fun e => e.2)).find? (fun f => f.path = ev.oldFullPath) with
      | some f =>
        let f' := { f with path := ev.fullPath, title := basename ev.fullPath }
        ⟨mapSet ev.fullPath f' (mapDelete ev.oldFullPath st.files),
         [⟨ChangeType.Renamed, f', ev.oldFullPath⟩], []⟩
      | none => noChange st

/-- What a run of `processRawFile` did. `mkdirs` records
`ensureDirectoryExists` calls, `wroteTarget` the target written by
convert/copy (if any). Watcher suspension is elided: it has no effect on
these components. -/
structure RawResult where
  files : List (String × MediaFile)
  events : List IFileEvent
  feedback : List String
  mkdirs : List String
  wroteTarget : Option String
deriving DecidableEq

/-- `MediaSource.processRawFile`. When the target exists the call log-skips.
For `.mp4`/`.mp3` the source then verifies the raw file, but it invokes the
instance method `MediaFile.getDuration` through the class object, which is
`undefined` at runtime; the resulting TypeError is caught by the surrounding
try/catch and treated as a probe failure, so this branch unconditionally
calls `rawDataWatcher.feedbackCreationError` and returns. Other extensions
are converted (`.mp4` only — unreachable) or copied, stat'ed and inserted. -/
def MediaSource.processRawFile (w : World) (st : SourceState)
    (rawPath : String) : RawResult :=
  match st.rawDataPath with
  | none => ⟨st.files, [], [], [], none⟩
  | some rawRoot =>
    let ext := String.toLowerCase (extname rawPath)
    let filename := basename rawPath
    let relativePath := relative_path rawRoot rawPath
    let targetPath := join_path st.path relativePath
    let dir := dirname_path targetPath
    let category := if dir = st.path then "ROOT" else relative_path st.path dir
    if w.pathExists targetPath then
      ⟨st.files, [], [], [], none⟩
    else
      if ext = ".mp4" ∨ ext = ".mp3" then
        ⟨st.files, [], [rawPath], [dir], none⟩
      else
        match w.statSize targetPath with
        | none => ⟨st.files, [], [], [dir], some targetPath⟩
        | some (size, mtime) =>
          match MediaFile.create w targetPath ext (basename filename) category size mtime with
          | none => ⟨st.files, [], [], [dir], some targetPath⟩
          | some file =>
            ⟨mapSet targetPath file st.files,
             [⟨ChangeType.Created, file, ""⟩], [], [dir], some targetPath⟩

/-! ### MediaFileManager (MediaFileManager.ts) -/

/-- The manager state read by its handlers. -/
structure ManagerState where
  store : List MetaData
  lastUpdated : Nat
deriving DecidableEq

/-- The record `MediaFileManager.handleFileCreated` passes to `upsert`:
file-derived fields from the file (`duration ?? 0` is the getter's default),
user-authored fields empty/zero. -/
def MediaFileManager.fileRecord (file : MediaFile) : MetaData :=
  { path := file.path, ext := file.ext, title := file.title,
    category := file.category, length := file.length, date := file.date,
    duration := file.duration,
    label := "", description := "", mark := 0, rating := 0, flag := 0,
    option := "" }

/-- `MediaFileManager.handleFileCreated`: upsert a record built from the
file, with empty/zero user-authored fields, then bump `lastUpdated`. -/
def MediaFileManager.handleFileCreated (now : Nat) (file : MediaFile)
    (st : ManagerState) : ManagerState :=
  { store := MetaDataDB.upsert now (MediaFileManager.fileRecord file) st.store,
    lastUpdated := now }

/-- `MediaFileManager.handleFileDeleted`: delete only; `lastUpdated` is not
touched. -/
def MediaFileManager.handleFileDeleted (file : MediaFile)
    (st : ManagerState) : ManagerState :=
  { st with store := MetaDataDB.delete file.path st.store }

/-- `MediaFileManager.handleFileRenamed`: `updatePath` only; `lastUpdated`
is not touched. -/
def MediaFileManager.handleFileRenamed (now : Nat) (file : MediaFile)
    (oldPath : String) (st : ManagerState) : ManagerState :=
  { st with store := MetaDataDB.updatePath now oldPath file.path st.store }

/-- `MediaFileManager.handleFileChanged`: dispatch on the event type. -/
def MediaFileManager.handleFileChanged (now : Nat) (ev : IFileEvent)
    (st : ManagerState) : ManagerState :=
  match ev.changeType with
  | ChangeType.Changed | ChangeType.Created =>
    MediaFileManager.handleFileCreated now ev.file st
  | ChangeType.Deleted => MediaFileManager.handleFileDeleted ev.file st
  | ChangeType.Renamed =>
    MediaFileManager.handleFileRenamed now ev.file ev.oldFullPath st

/-- A source handler step followed by delivery of its emitted events to the
manager (the manager subscribes to each source's `change` stream). -/
def sourceManagerStep (now : Nat) (w : World) (src : SourceState)
    (mg : ManagerState) (ev : FileChangeEvent) : HandlerResult × ManagerState :=
  let res := MediaSource.handleFileChange w src ev
  (res, res.events.foldl (fun m e => MediaFileManager.handleFileChanged now e m) mg)

/-- A source as `MediaFileManager.initialize` sees it after `scan()`: the
files map, plus the `Created` events emitted while scanning (raw-data
imports), which reach `handleFileChanged` during the scan because the
subscription precedes it. -/
structure ScannedSource where
  files : List (String × MediaFile)
  rawCreated : List MediaFile
deriving DecidableEq

/-- One source's portion of `MediaFileManager.initialize`: deliver the scan's
raw-import events, then walk `source.getFiles()`, marking known paths in
`existingPaths` and upserting unknown ones. -/
def MediaFileManager.processSource (now : Nat) (acc : List String × ManagerState)
    (src : ScannedSource) : List String × ManagerState :=
  let st1 := src.rawCreated.foldl
    (fun st f => MediaFileManager.handleFileCreated now f st) acc.2
  src.files.foldl
    (fun (p : List String × ManagerState) entry =>
      if p.1.contains entry.2.path then
        (p.1.erase entry.2.path, p.2)
      else
        (p.1, MediaFileManager.handleFileCreated now entry.2 p.2))
    (acc.1, st1)

/-- `MediaFileManager.initialize` (named `initializeStartup` here): load the
stored paths, process each source, delete the paths that no scan produced,
set `lastUpdated`. -/
def MediaFileManager.initializeStartup (now : Nat) (store0 : List MetaData)
    (sources : List ScannedSource) : ManagerState :=
  let existingPaths := store0.map (fun r => r.path)
  let start : List String × ManagerState := (existingPaths, ⟨store0, 0⟩)
  let result := sources.foldl (MediaFileManager.processSource now) start
  { store := result.1.foldl (fun s p => MetaDataDB.delete p s) result.2.store,
    lastUpdated := now }

/-! ### ComparableFileList and CloudWatcher -/

/-- `ComparableFileList`: a base path and the set of root-relative paths of
the regular files under it. -/
structure ComparableFileList where
  basePath : String
  files : List String
deriving DecidableEq

/-- `ComparableFileList.remove`: relativize the absolute path and delete it
from the set; tolerant when absent. -/
def ComparableFileList.remove (l : ComparableFileList) (filePath : String) :
    ComparableFileList :=
  let relativePath := relative_path l.basePath filePath
  if l.files.contains relativePath then
    { l with files := l.files.filter (fun f => f ≠ relativePath) }
  else l

/-- `ComparableFileList.compare`: the two set differences, resolved to
absolute paths against each side's base. -/
def ComparableFileList.compare (src dst : ComparableFileList) :
    List String × List String :=
  ((src.files.filter (fun f => ¬ dst.files.contains f)).map
      (fun f => join_path src.basePath f),
   (dst.files.filter (fun f => ¬ src.files.contains f)).map
      (fun f => join_path dst.basePath f))

/-- The state of a `CloudWatcher`: the watched root, the committed snapshot
(none until the first scan), and the retry list fed by
`feedbackCreationError`. -/
structure CloudWatcherState where
  currentPath : String
  fileList : Option ComparableFileList := none
  retryList : List String := []
deriving DecidableEq

/-- `CloudWatcher.feedbackCreationError`: push onto the retry list. -/
def CloudWatcher.feedbackCreationError (s : CloudWatcherState) (path : String) :
    CloudWatcherState :=
  { s with retryList := s.retryList ++ [path] }

/-- One `scanCloudPath` tick on the fresh directory `listing` (root-relative
paths). With no previous snapshot it only records the baseline. Otherwise the
retry-list paths are removed from the previous snapshot, the retry list is
cleared, and the diff is emitted: `Deleted` for only-in-previous, `Created`
for only-in-current. -/
def CloudWatcher.scanCloudPath (s : CloudWatcherState) (listing : List String) :
    CloudWatcherState × List FileChangeEvent :=
  let currentList : ComparableFileList := ⟨s.currentPath, listing⟩
  match s.fileList with
  | none => ({ s with fileList := some currentList }, [])
  | some previousList =>
    let prev := s.retryList.foldl (fun pl p => pl.remove p) previousList
    let diff := prev.compare currentList
    let deletedEvents := diff.1.map (fun p =>
      { changeType := ChangeType.Deleted, name := basename p, fullPath := p :
        FileChangeEvent })
    let createdEvents := diff.2.map (fun p =>
      { changeType := ChangeType.Created, name := basename p, fullPath := p :
        FileChangeEvent })
    ({ s with fileList := some currentList, retryList := [] },
     deletedEvents ++ createdEvents)

/-- A sequence of scan ticks; returns the final state and all emitted
events in order. -/
def CloudWatcher.runScans (s : CloudWatcherState) :
    List (List String) → CloudWatcherState × List FileChangeEvent
  | [] => (s, [])
  | L :: rest =>
    let step := CloudWatcher.scanCloudPath s L
    let next := CloudWatcher.runScans step.1 rest
    (next.1, step.2 ++ next.2)

/-! ### Derived views -/

/-- The set of paths stored in the metadata store. -/
def storePaths (rows : List MetaData) : List String :=
  rows.map (fun r => r.path)

/-! ### Concrete fixtures used in witnesses and counterexamples -/

/-- A world in which every external operation fails or reports absence. -/
def exWorldNone : World :=
  ⟨fun _ => none, fun _ => none, fun _ => false, fun _ _ => false⟩

/-- A world in which stat and probe succeed and no path exists yet. -/
def exWorldFresh : World :=
  ⟨fun _ => some (10, 5), fun _ => some 42, fun _ => false, fun _ _ => true⟩

/-- A world in which stat and probe succeed and every path already exists. -/
def exWorldAll : World :=
  ⟨fun _ => some (10, 5), fun _ => some 42, fun _ => true, fun _ _ => true⟩

/-- A tracked media file at `m/a.mp4`. -/
def exFile : MediaFile := ⟨"m/a.mp4", ".mp4", "a", "ROOT", 10, 5, 7⟩

/-- A tracked media file whose name has an upper-case extension. -/
def exFileUpper : MediaFile := ⟨"m/a.MP4", ".mp4", "a", "ROOT", 10, 5, 7⟩

/-- `exFile` after its size and mtime changed on disk. -/
def exFileGrown : MediaFile := ⟨"m/a.mp4", ".mp4", "a", "ROOT", 11, 6, 7⟩

/-- The store row for `exFile` with empty user-authored fields. -/
def exRecord : MetaData :=
  { path := "m/a.mp4", ext := ".mp4", title := "a", category := "ROOT",
    length := 10, date := 5, duration := 7, label := "", description := "",
    mark := 0, rating := 0, flag := 0, option := "",
    id := 1, created_at := 1, updated_at := 1 }

/-- The store row for `exFile` after a user annotated it. -/
def exRecordRich : MetaData :=
  { path := "m/a.mp4", ext := ".mp4", title := "a", category := "ROOT",
    length := 10, date := 5, duration := 7, label := "favorite",
    description := "watch again", mark := 3, rating := 5, flag := 2,
    option := "opt", id := 1, created_at := 1, updated_at := 1 }

/-- A store row whose file has vanished from every source. -/
def exRecordStale : MetaData :=
  { path := "m/gone.mp4", ext := ".mp4", title := "gone", category := "ROOT",
    length := 1, date := 1, duration := 1, label := "", description := "",
    mark := 0, rating := 0, flag := 0, option := "", id := 2 }

/-- A source state tracking `exFile` under root `m`. -/
def exSource : SourceState := { path := "m", files := [("m/a.mp4", exFile)] }

/-- A source state tracking `exFileUpper` under root `m`. -/
def exSourceUpper : SourceState := { path := "m", files := [("m/a.MP4", exFileUpper)] }

/-- A source state with raw-data root `r` and no files yet. -/
def exSourceRaw : SourceState := { path := "m", rawDataPath := some "r", files := [] }

/-- A scanned source that found `exFile` and a second, new file. -/
def exScanned : ScannedSource :=
  { files := [("m/a.mp4", exFile), ("m/b.mp4", ⟨"m/b.mp4", ".mp4", "b", "ROOT", 3, 4, 5⟩)],
    rawCreated := [] }

/-- A cloud watcher on `r` with committed snapshot `[x.mp4]` and a pending
retry entry for `r/x.mp4`. -/
def exCloudRetry : CloudWatcherState :=
  { currentPath := "r", fileList := some ⟨"r", ["x.mp4"]⟩, retryList := ["r/x.mp4"] }

/-- A cloud watcher on `r` that has not scanned yet. -/
def exCloudFresh : CloudWatcherState := { currentPath := "r" }

/-! ## Helper lemmas -/

theorem fileRecord_path (file : MediaFile) :
    (MediaFileManager.fileRecord file).path = file.path := rfl

/-! ## Claim C1

The spec asserts that an upsert on a conflicting path overwrites only the
file-derived fields. The `ON CONFLICT` clause of `MetaDataDB.upsert` sets
all thirteen bound columns, including `label`, `description`, `mark`,
`rating`, `flag` and `option`, and `handleFileCreated` binds those to
empty/zero — so a `Changed` event resets the user-authored fields. -/

/-- C1 counterexample: upserting (via `handleFileCreated`, as a `Changed`
event does) over the annotated record `exRecordRich` resets `label` to `""`
and `rating` to `0`; the claim demands they keep `"favorite"` and `5`. -/
theorem c1_user_fields_counterexample :
    ((MediaFileManager.handleFileCreated 99 exFileGrown ⟨[exRecordRich], 1⟩).store.map
        (fun r => (r.label, r.rating))) = [("", 0)]
    ∧ ([("", 0)] : List (String × Nat)) ≠ [("favorite", 5)] := by
  constructor
  · decide
  · decide

/-- C1 (amended): on an upsert whose path collides with an existing record,
every bound column of that record is overwritten with the supplied values:
the file-derived fields take the file's values and the user-authored fields
take the handler's constants (`""`/`0`), so user-authored annotations do not
survive a `Changed` event. `updated_at` is bumped by the update trigger. -/
theorem c1_upsert_overwrites_user_fields (now : Nat) (file : MediaFile)
    (st : ManagerState)
    (h : st.store.any (fun r => r.path = file.path) = true) :
    ∀ r ∈ (MediaFileManager.handleFileCreated now file st).store,
      r.path = file.path →
        r.ext = file.ext ∧ r.title = file.title ∧ r.category = file.category ∧
        r.length = file.length ∧ r.date = file.date ∧
        r.duration = file.duration ∧
        r.label = "" ∧ r.description = "" ∧ r.mark = 0 ∧ r.rating = 0 ∧
        r.flag = 0 ∧ r.option = "" ∧ r.updated_at = now := by
  intro r hr hpath
  unfold MediaFileManager.handleFileCreated MetaDataDB.upsert at hr
  rw [fileRecord_path] at hr
  rw [if_pos h] at hr
  rcases List.mem_map.mp hr with ⟨r0, hr0, hval⟩
  by_cases hc : r0.path = file.path
  · rw [if_pos hc] at hval
    subst hval
    exact ⟨rfl, rfl, rfl, rfl, rfl, rfl, rfl, rfl, rfl, rfl, rfl, rfl, rfl⟩
  · rw [if_neg hc] at hval
    subst hval
    exact absurd hpath hc

/-- C1 witness: the amended theorem applied to `exFileGrown` over a store
holding `exRecordRich`. -/
theorem c1_user_fields_witness :
    (([exRecordRich].any (fun r => r.path = exFileGrown.path)) = true)
    ∧ (∀ r ∈ (MediaFileManager.handleFileCreated 99 exFileGrown
          ⟨[exRecordRich], 1⟩).store,
        r.path = exFileGrown.path →
          r.ext = exFileGrown.ext ∧ r.title = exFileGrown.title ∧
          r.category = exFileGrown.category ∧
          r.length = exFileGrown.length ∧ r.date = exFileGrown.date ∧
          r.duration = exFileGrown.duration ∧
          r.label = "" ∧ r.description = "" ∧ r.mark = 0 ∧ r.rating = 0 ∧
          r.flag = 0 ∧ r.option = "" ∧ r.updated_at = 99) :=
  ⟨by decide, c1_upsert_overwrites_user_fields 99 exFileGrown ⟨[exRecordRich], 1⟩ (by decide)⟩

/-! ## Claim C2

The spec says `processRawFile` probes `.mp4`/`.mp3` raw files with ffprobe
and imports them once probeable. The code invokes the instance method
`MediaFile.getDuration` through the class object — `undefined` at runtime —
so the guarded call throws a TypeError on every invocation; the catch block
treats it as a probe failure. Every `.mp4`/`.mp3` raw file therefore hits
`feedbackCreationError` and is never imported, on this tick or any later
one. -/

/-- C2: for any `.mp4` raw file whose target does not exist yet,
`processRawFile` calls `feedbackCreationError(rawPath)` and imports
nothing — even when the file is perfectly probeable
(`w.probeDuration rawPath = some d`); the probe oracle is never consulted. -/
theorem c2_mp4_raw_never_imported (w : World) (st : SourceState)
    (rawPath rawRoot : String) (d : Nat)
    (hraw : st.rawDataPath = some rawRoot)
    (hext : String.toLowerCase (extname rawPath) = ".mp4")
    (hmissing : w.pathExists (join_path st.path (relative_path rawRoot rawPath)) = false)
    (hprobeable : w.probeDuration rawPath = some d) :
    MediaSource.processRawFile w st rawPath =
      ⟨st.files, [], [rawPath],
       [dirname_path (join_path st.path (relative_path rawRoot rawPath))], none⟩ := by
  unfold MediaSource.processRawFile
  rw [hraw]
  simp [hext, hmissing]

/-- C2 witness: the divergent behavior at the concrete failing input
`r/x.mp4` in a world where the file is probeable. -/
theorem c2_mp4_raw_never_imported_witness :
    (exSourceRaw.rawDataPath = some "r")
    ∧ (String.toLowerCase (extname "r/x.mp4") = ".mp4")
    ∧ (exWorldFresh.pathExists (join_path exSourceRaw.path (relative_path "r" "r/x.mp4")) = false)
    ∧ (exWorldFresh.probeDuration "r/x.mp4" = some 42)
    ∧ MediaSource.processRawFile exWorldFresh exSourceRaw "r/x.mp4" =
        ⟨exSourceRaw.files, [], ["r/x.mp4"],
         [dirname_path (join_path exSourceRaw.path (relative_path "r" "r/x.mp4"))], none⟩ :=
  ⟨by decide, by decide, by decide, by decide,
   c2_mp4_raw_never_imported exWorldFresh exSourceRaw "r/x.mp4" "r" 42
     (by decide) (by decide) (by decide) (by decide)⟩

/-! ## Claim C7 -/

/-- C7: when the target path already exists on disk, `processRawFile`
returns without touching the target, the files map, the store (no events
are delivered to the manager), or any directory; hence a second invocation
after a successful first one — the target then existing — is a no-op. -/
theorem c7_processRawFile_idempotent (w : World) (st : SourceState)
    (rawPath rawRoot : String)
    (hraw : st.rawDataPath = some rawRoot)
    (hexists : w.pathExists (join_path st.path (relative_path rawRoot rawPath)) = true) :
    MediaSource.processRawFile w st rawPath = ⟨st.files, [], [], [], none⟩ := by
  unfold MediaSource.processRawFile
  rw [hraw]
  simp only [hexists, if_true]

/-- C7 witness: skipping the already-present target `m/x.mp4`. -/
theorem c7_processRawFile_idempotent_witness :
    (exSourceRaw.rawDataPath = some "r")
    ∧ (exWorldAll.pathExists (join_path exSourceRaw.path (relative_path "r" "r/x.mp4")) = true)
    ∧ MediaSource.processRawFile exWorldAll exSourceRaw "r/x.mp4" =
        ⟨exSourceRaw.files, [], [], [], none⟩ :=
  ⟨by decide, by decide,
   c7_processRawFile_idempotent exWorldAll exSourceRaw "r/x.mp4" "r" (by decide) (by decide)⟩

/-! ## Claim C8

Only `handleFileCreated` (the `Created`/`Changed` branch) bumps
`lastUpdated`; `handleFileDeleted` and `handleFileRenamed` mutate the store
without touching it. -/

/-- C8 counterexample: a `Deleted` event for the only stored record empties
the store (a store mutation) yet leaves `lastUpdated` at its old value `5`
instead of the current time `99`. -/
theorem c8_lastUpdated_counterexample :
    (MediaFileManager.handleFileChanged 99 ⟨ChangeType.Deleted, exFile, ""⟩
        ⟨[exRecord], 5⟩).store = []
    ∧ (MediaFileManager.handleFileChanged 99 ⟨ChangeType.Deleted, exFile, ""⟩
        ⟨[exRecord], 5⟩).lastUpdated = 5
    ∧ (5 : Nat) ≠ 99 := by
  refine ⟨by decide, by decide, by decide⟩

/-- C8 (amended): `lastUpdated` is set to the current time exactly by the
`Created`/`Changed` upsert path; `Deleted` and `Renamed` events mutate the
store (delete resp. updatePath) but leave `lastUpdated` unchanged. -/
theorem c8_lastUpdated_only_on_upsert (now : Nat) (ev : IFileEvent)
    (st : ManagerState) :
    ((ev.changeType = ChangeType.Created ∨ ev.changeType = ChangeType.Changed) →
        (MediaFileManager.handleFileChanged now ev st).lastUpdated = now)
    ∧ (ev.changeType = ChangeType.Deleted →
        (MediaFileManager.handleFileChanged now ev st).lastUpdated = st.lastUpdated
        ∧ (MediaFileManager.handleFileChanged now ev st).store =
            MetaDataDB.delete ev.file.path st.store)
    ∧ (ev.changeType = ChangeType.Renamed →
        (MediaFileManager.handleFileChanged now ev st).lastUpdated = st.lastUpdated
        ∧ (MediaFileManager.handleFileChanged now ev st).store =
            MetaDataDB.updatePath now ev.oldFullPath ev.file.path st.store) := by
  obtain ⟨ty, file, old⟩ := ev
  cases ty <;>
    simp [MediaFileManager.handleFileChanged, MediaFileManager.handleFileCreated,
      MediaFileManager.handleFileDeleted, MediaFileManager.handleFileRenamed]

/-- C8 witness: the amended theorem at a concrete `Deleted` event. -/
theorem c8_lastUpdated_witness :
    ((⟨ChangeType.Deleted, exFile, ""⟩ : IFileEvent).changeType = ChangeType.Deleted)
    ∧ ((MediaFileManager.handleFileChanged 99 ⟨ChangeType.Deleted, exFile, ""⟩
          ⟨[exRecord], 5⟩).lastUpdated = (5 : Nat)
        ∧ (MediaFileManager.handleFileChanged 99 ⟨ChangeType.Deleted, exFile, ""⟩
            ⟨[exRecord], 5⟩).store =
          MetaDataDB.delete exFile.path [exRecord]) :=
  ⟨rfl, (c8_lastUpdated_only_on_upsert 99 ⟨ChangeType.Deleted, exFile, ""⟩
    ⟨[exRecord], 5⟩).2.1 rfl⟩

/-! ## Claim C6 -/

/-- C6: a `Created` or `Changed` event whose stat result equals the cached
`(length, date)` of the tracked file is dropped: the files map is
untouched, no change event is emitted, no feedback is sent, and — since no
event reaches the manager — the store is not mutated. -/
theorem c6_coalesced_event_dropped (now : Nat) (w : World) (src : SourceState)
    (mg : ManagerState) (ev : FileChangeEvent) (o : MediaFile)
    (hty : ev.changeType = ChangeType.Created ∨ ev.changeType = ChangeType.Changed)
    (hold : mapGet ev.fullPath src.files = some o)
    (hstat : w.statSize ev.fullPath = some (o.length, o.date)) :
    MediaSource.handleFileChange w src ev = noChange src
    ∧ (sourceManagerStep now w src mg ev).2 = mg := by
  have hhandler : MediaSource.handleFileChange w src ev = noChange src := by
    unfold MediaSource.handleFileChange
    by_cases hacc :
        isAcceptableExtension (String.toLowerCase (extname ev.fullPath)) = true
    · rcases hty with h | h <;>
        simp [hacc, h, hstat, hold]
    · rcases hty with h | h <;>
        simp [hacc, h]
  refine ⟨hhandler, ?_⟩
  unfold sourceManagerStep
  rw [hhandler]
  rfl

/-- C6 witness: an unchanged-stat `Changed` event for `exFile`. -/
theorem c6_coalesced_event_dropped_witness :
    ((⟨ChangeType.Changed, "a.mp4", "m/a.mp4", "", ""⟩ : FileChangeEvent).changeType =
        ChangeType.Created
      ∨ (⟨ChangeType.Changed, "a.mp4", "m/a.mp4", "", ""⟩ : FileChangeEvent).changeType =
        ChangeType.Changed)
    ∧ (mapGet "m/a.mp4" exSource.files = some exFile)
    ∧ (exWorldFresh.statSize "m/a.mp4" = some (exFile.length, exFile.date))
    ∧ (MediaSource.handleFileChange exWorldFresh exSource
          ⟨ChangeType.Changed, "a.mp4", "m/a.mp4", "", ""⟩ = noChange exSource
        ∧ (sourceManagerStep 99 exWorldFresh exSource ⟨[exRecord], 1⟩
            ⟨ChangeType.Changed, "a.mp4", "m/a.mp4", "", ""⟩).2 = ⟨[exRecord], 1⟩) :=
  ⟨Or.inr rfl, by decide, by decide,
   c6_coalesced_event_dropped 99 exWorldFresh exSource ⟨[exRecord], 1⟩
     ⟨ChangeType.Changed, "a.mp4", "m/a.mp4", "", ""⟩ exFile (Or.inr rfl)
     (by decide) (by decide)⟩

/-! ## Claim C9

The filter lower-cases `extname(event.fullPath)` before the acceptability
test, but the promotion check for renames applies `isAcceptableExtension`
to `extname(oldFullPath)` as-is, without lower-casing — so an old name with
an upper-case acceptable extension is *not* promoted to `Deleted`, contrary
to the claim's "matched case-insensitively". -/

/-- C9 counterexample: the tracked file `m/a.MP4` is renamed to `m/a.txt`.
The claim requires this to be handled as `Deleted{m/a.MP4}` (old entry
removed, `Deleted` emitted); the code drops the event entirely because
`extname "m/a.MP4" = ".MP4"` is not in the (lower-case) acceptable list. -/
theorem c9_case_sensitivity_counterexample :
    MediaSource.handleFileChange exWorldNone exSourceUpper
        ⟨ChangeType.Renamed, "a.txt", "m/a.txt", "a.MP4", "m/a.MP4"⟩ =
      noChange exSourceUpper
    ∧ (noChange exSourceUpper).files = [("m/a.MP4", exFileUpper)]
    ∧ (noChange exSourceUpper).events = [] := by
  refine ⟨by decide, by decide, by decide⟩

/-- C9 (amended): an event whose `fullPath` extension — lower-cased — is
unacceptable is dropped with no effect, except that a `Renamed` whose old
name's `extname`, matched as-is (case-sensitively, so only lower-case
spellings), is acceptable is handled as `Deleted{oldFullPath}`: the old
entry is removed from the files map and a `Deleted` change is emitted. -/
theorem c9_extension_filter (w : World) (st : SourceState)
    (ev : FileChangeEvent) (f : MediaFile)
    (hacc : isAcceptableExtension (String.toLowerCase (extname ev.fullPath)) = false) :
    ((ev.changeType = ChangeType.Renamed →
        isAcceptableExtension (extname ev.oldFullPath) = false) →
      MediaSource.handleFileChange w st ev = noChange st)
    ∧ (ev.changeType = ChangeType.Renamed →
        isAcceptableExtension (extname ev.oldFullPath) = true →
        mapGet ev.oldFullPath st.files = some f →
        MediaSource.handleFileChange w st ev =
          ⟨mapDelete ev.oldFullPath st.files,
           [⟨ChangeType.Deleted, f, ""⟩], []⟩) := by
  constructor
  · intro hdrop
    unfold MediaSource.handleFileChange
    by_cases hre : ev.changeType = ChangeType.Renamed
    · simp [hacc, hre, hdrop hre]
    · simp [hacc, hre]
  · intro hre hold hmem
    unfold MediaSource.handleFileChange
    simp [hacc, hre, hold, hmem]

/-- C9 witness: both parts at concrete inputs — the upper-case-old-name
rename is dropped; the lower-case-old-name rename is promoted to `Deleted`. -/
theorem c9_extension_filter_witness :
    (isAcceptableExtension (String.toLowerCase (extname "m/a.txt")) = false)
    ∧ (isAcceptableExtension (extname "m/a.MP4") = false)
    ∧ MediaSource.handleFileChange exWorldNone exSourceUpper
        ⟨ChangeType.Renamed, "a.txt", "m/a.txt", "a.MP4", "m/a.MP4"⟩ =
        noChange exSourceUpper
    ∧ (isAcceptableExtension (extname "m/a.mp4") = true)
    ∧ (mapGet "m/a.mp4" exSource.files = some exFile)
    ∧ MediaSource.handleFileChange exWorldNone exSource
        ⟨ChangeType.Renamed, "a.txt", "m/a.txt", "a.mp4", "m/a.mp4"⟩ =
        ⟨mapDelete "m/a.mp4" exSource.files, [⟨ChangeType.Deleted, exFile, ""⟩], []⟩ :=
  ⟨by decide, by decide,
   (c9_extension_filter exWorldNone exSourceUpper
      ⟨ChangeType.Renamed, "a.txt", "m/a.txt", "a.MP4", "m/a.MP4"⟩ exFileUpper
      (by decide)).1 (fun _ => by decide),
   by decide, by decide,
   (c9_extension_filter exWorldNone exSource
      ⟨ChangeType.Renamed, "a.txt", "m/a.txt", "a.mp4", "m/a.mp4"⟩ exFile
      (by decide)).2 rfl (by decide) (by decide)⟩

/-! ## Claim C3

`updatePath` takes no title argument and updates only `path` (the trigger
bumps `updated_at`), so the store record keeps its pre-rename title; and the
in-memory handler sets `file.title = basename(fullPath)`, which *includes*
the extension. The claim's "title equals the new filename without its
extension" fails on both counts. -/

/-- C3 counterexample: renaming `m/a.mp4` to `m/sub/b.mp4` leaves the single
store record's title at `"a"`; the claim demands `"b"` (the new filename
without extension). The in-memory file's title becomes `"b.mp4"`, not `"b"`. -/
theorem c3_rename_title_counterexample :
    ((sourceManagerStep 99 exWorldNone exSource ⟨[exRecord], 1⟩
        ⟨ChangeType.Renamed, "b.mp4", "m/sub/b.mp4", "a.mp4", "m/a.mp4"⟩).2.store.map
      (fun r => (r.path, r.title))) = [("m/sub/b.mp4", "a")]
    ∧ ((sourceManagerStep 99 exWorldNone exSource ⟨[exRecord], 1⟩
        ⟨ChangeType.Renamed, "b.mp4", "m/sub/b.mp4", "a.mp4", "m/a.mp4"⟩).1.files.map
      (fun e => e.2.title)) = ["b.mp4"]
    ∧ ("a" : String) ≠ "b" ∧ ("b.mp4" : String) ≠ "b" := by
  refine ⟨by decide, by decide, by decide, by decide⟩

/-- C3 (amended): a `Renamed` event for a tracked file moves the files-map
entry to the new path, setting the in-memory title to the new filename
*including* its extension; the store afterwards holds exactly one record for
the file, whose path is the new full path, whose `updated_at` is bumped, and
whose title and user-authored fields keep their previous values
(`updatePath` changes only `path`); no record keeps the old path;
`lastUpdated` is unchanged. -/
theorem c3_rename_moves_path_keeps_title (now : Nat) (w : World)
    (src : SourceState) (mg : ManagerState) (nm newP oldP : String)
    (f : MediaFile) (r0 : MetaData)
    (hacc : isAcceptableExtension (String.toLowerCase (extname newP)) = true)
    (hf : (src.files.map (fun e => e.2)).find? (fun x => x.path = oldP) = some f)
    (hr0 : r0 ∈ mg.store) (hr0p : r0.path = oldP)
    (huniq : ∀ r ∈ mg.store, r.path = oldP → r = r0)
    (hnew : ∀ r ∈ mg.store, r.path ≠ newP) :
    (sourceManagerStep now w src mg ⟨ChangeType.Renamed, nm, newP, basename oldP, oldP⟩).1.files =
      mapSet newP { f with path := newP, title := basename newP } (mapDelete oldP src.files)
    ∧ (sourceManagerStep now w src mg ⟨ChangeType.Renamed, nm, newP, basename oldP, oldP⟩).1.events =
      [⟨ChangeType.Renamed, { f with path := newP, title := basename newP }, oldP⟩]
    ∧ ({ r0 with path := newP, updated_at := now } ∈
        (sourceManagerStep now w src mg ⟨ChangeType.Renamed, nm, newP, basename oldP, oldP⟩).2.store)
    ∧ (∀ r ∈ (sourceManagerStep now w src mg ⟨ChangeType.Renamed, nm, newP, basename oldP, oldP⟩).2.store,
        r.path = newP → r = { r0 with path := newP, updated_at := now })
    ∧ (∀ r ∈ (sourceManagerStep now w src mg ⟨ChangeType.Renamed, nm, newP, basename oldP, oldP⟩).2.store,
        r.path ≠ oldP)
    ∧ (sourceManagerStep now w src mg ⟨ChangeType.Renamed, nm, newP, basename oldP, oldP⟩).2.lastUpdated =
      mg.lastUpdated := by
  have hne : oldP ≠ newP := by
    intro h
    exact hnew r0 hr0 (h ▸ hr0p)
  have hhandler : MediaSource.handleFileChange w src
      ⟨ChangeType.Renamed, nm, newP, basename oldP, oldP⟩ =
      ⟨mapSet newP { f with path := newP, title := basename newP } (mapDelete oldP src.files),
       [⟨ChangeType.Renamed, { f with path := newP, title := basename newP }, oldP⟩], []⟩ := by
    unfold MediaSource.handleFileChange
    simp [hacc, hf]
  have hstep : sourceManagerStep now w src mg
      ⟨ChangeType.Renamed, nm, newP, basename oldP, oldP⟩ =
      (⟨mapSet newP { f with path := newP, title := basename newP } (mapDelete oldP src.files),
        [⟨ChangeType.Renamed, { f with path := newP, title := basename newP }, oldP⟩], []⟩,
       { mg with store := MetaDataDB.updatePath now oldP newP mg.store }) := by
    unfold sourceManagerStep
    rw [hhandler]
    rfl
  rw [hstep]
  refine ⟨rfl, rfl, ?_, ?_, ?_, rfl⟩
  · show _ ∈ MetaDataDB.updatePath now oldP newP mg.store
    unfold MetaDataDB.updatePath
    exact List.mem_map.mpr ⟨r0, hr0, by rw [if_pos hr0p]⟩
  · intro r hr hpath
    rcases List.mem_map.mp hr with ⟨r1, hr1, hval⟩
    by_cases hc : r1.path = oldP
    · rw [if_pos hc] at hval
      rw [huniq r1 hr1 hc] at hval
      exact hval.symm
    · rw [if_neg hc] at hval
      subst hval
      exact absurd hpath (hnew r1 hr1)
  · intro r hr
    rcases List.mem_map.mp hr with ⟨r1, hr1, hval⟩
    by_cases hc : r1.path = oldP
    · rw [if_pos hc] at hval
      subst hval
      simpa using (Ne.symm hne)
    · rw [if_neg hc] at hval
      subst hval
      exact hc

/-- C3 witness: renaming `m/a.mp4` to `m/sub/b.mp4` over the store holding
`exRecord`. -/
theorem c3_rename_moves_path_witness :
    (isAcceptableExtension (String.toLowerCase (extname "m/sub/b.mp4")) = true)
    ∧ ((exSource.files.map (fun e => e.2)).find? (fun x => x.path = "m/a.mp4") = some exFile)
    ∧ (exRecord ∈ [exRecord]) ∧ (exRecord.path = "m/a.mp4")
    ∧ (∀ r ∈ (sourceManagerStep 99 exWorldNone exSource ⟨[exRecord], 1⟩
          ⟨ChangeType.Renamed, "b.mp4", "m/sub/b.mp4", basename "m/a.mp4", "m/a.mp4"⟩).2.store,
        r.path = "m/sub/b.mp4" → r = { exRecord with path := "m/sub/b.mp4", updated_at := 99 })
    ∧ ({ exRecord with path := "m/sub/b.mp4", updated_at := 99 } ∈
        (sourceManagerStep 99 exWorldNone exSource ⟨[exRecord], 1⟩
          ⟨ChangeType.Renamed, "b.mp4", "m/sub/b.mp4", basename "m/a.mp4", "m/a.mp4"⟩).2.store) :=
  ⟨by decide, by decide, by decide, by decide,
   (c3_rename_moves_path_keeps_title 99 exWorldNone exSource ⟨[exRecord], 1⟩
      "b.mp4" "m/sub/b.mp4" "m/a.mp4" exFile exRecord
      (by decide) (by decide) (by decide) (by decide)
      (by decide) (by decide)).2.2.2.1,
   (c3_rename_moves_path_keeps_title 99 exWorldNone exSource ⟨[exRecord], 1⟩
      "b.mp4" "m/sub/b.mp4" "m/a.mp4" exFile exRecord
      (by decide) (by decide) (by decide) (by decide)
      (by decide) (by decide)).2.2.1⟩

/-! ## CloudWatcher lemmas -/

theorem string_append_left_cancel {a b c : String} (h : a ++ b = a ++ c) : b = c := by
  have h2 := congrArg String.data h
  simp only [String.data_append] at h2
  exact String.ext (List.append_cancel_left h2)

theorem join_path_right_inj {base r s : String} (h : join_path base r = join_path base s) :
    r = s := by
  unfold join_path at h
  exact string_append_left_cancel h

theorem remove_basePath (l : ComparableFileList) (p : String) :
    (l.remove p).basePath = l.basePath := by
  by_cases hm : relative_path l.basePath p ∈ l.files <;>
    simp [ComparableFileList.remove, hm]

theorem mem_remove_files {l : ComparableFileList} {p x : String} :
    x ∈ (l.remove p).files ↔ x ∈ l.files ∧ x ≠ relative_path l.basePath p := by
  unfold ComparableFileList.remove
  by_cases hc : l.files.contains (relative_path l.basePath p) = true
  · simp only [hc, if_true, List.mem_filter, decide_eq_true_eq]
  · have hrel : relative_path l.basePath p ∉ l.files := by simpa using hc
    simp only [hc, Bool.false_eq_true, if_false]
    constructor
    · intro hx
      exact ⟨hx, fun he => hrel (he ▸ hx)⟩
    · exact fun hx => hx.1

theorem foldl_remove_basePath (ps : List String) (l : ComparableFileList) :
    (ps.foldl (fun pl p => pl.remove p) l).basePath = l.basePath := by
  induction ps generalizing l with
  | nil => rfl
  | cons p rest ih => rw [List.foldl_cons, ih, remove_basePath]

theorem mem_foldl_remove (ps : List String) (l : ComparableFileList) (x : String) :
    x ∈ (ps.foldl (fun pl p => pl.remove p) l).files ↔
      x ∈ l.files ∧ ∀ p ∈ ps, x ≠ relative_path l.basePath p := by
  induction ps generalizing l with
  | nil => simp
  | cons p rest ih =>
    rw [List.foldl_cons, ih, remove_basePath, mem_remove_files]
    simp only [List.mem_cons]
    constructor
    · rintro ⟨⟨hx, hne⟩, hall⟩
      refine ⟨hx, ?_⟩
      rintro q (rfl | hq)
      · exact hne
      · exact hall q hq
    · rintro ⟨hx, hall⟩
      exact ⟨⟨hx, hall p (Or.inl rfl)⟩, fun q hq => hall q (Or.inr hq)⟩

/-! ## Claim C5 -/

/-- C5: over a tick with a committed snapshot, (1) a path `rel` already in
the snapshot and not named by any retry entry is never re-reported as
`Created`; (2) after `feedbackCreationError(p)` where `p` names `rel` under
the root, the tick re-emits `Created` for `rel` provided `rel` is still in
the fresh listing; (3) the tick commits the fresh listing and clears the
retry list — so a file appearing once is reported at most once unless fed
back. -/
theorem c5_cloud_retry_reemission (s : CloudWatcherState)
    (prev : ComparableFileList) (L : List String) (rel p : String)
    (hsnap : s.fileList = some prev)
    (hbase : prev.basePath = s.currentPath) :
    ((rel ∈ prev.files → (∀ q ∈ s.retryList, relative_path s.currentPath q ≠ rel) →
      ∀ e ∈ (CloudWatcher.scanCloudPath s L).2,
        e.changeType = ChangeType.Created →
          e.fullPath ≠ join_path s.currentPath rel))
    ∧ (p ∈ s.retryList → relative_path s.currentPath p = rel → rel ∈ L →
      (⟨ChangeType.Created, basename (join_path s.currentPath rel),
        join_path s.currentPath rel, "", ""⟩ : FileChangeEvent) ∈
        (CloudWatcher.scanCloudPath s L).2)
    ∧ (CloudWatcher.scanCloudPath s L).1.fileList = some ⟨s.currentPath, L⟩
    ∧ (CloudWatcher.scanCloudPath s L).1.retryList = [] := by
  unfold CloudWatcher.scanCloudPath ComparableFileList.compare
  rw [hsnap]
  simp only
  refine ⟨?_, ?_, by trivial, by trivial⟩
  · intro hin hnone e he hty hpath
    rcases List.mem_append.mp he with hdel | hcre
    · rcases List.mem_map.mp hdel with ⟨q, _, hq⟩
      rw [← hq] at hty
      exact ChangeType.noConfusion hty
    · rcases List.mem_map.mp hcre with ⟨q, hqmem, hq⟩
      rcases List.mem_map.mp hqmem with ⟨r0, hr0mem, hr0⟩
      rw [← hq] at hpath
      simp only at hpath
      rw [← hr0] at hpath
      have hr0rel : r0 = rel := join_path_right_inj hpath
      subst hr0rel
      rcases List.mem_filter.mp hr0mem with ⟨_, hnotprev⟩
      simp only [decide_eq_true_eq] at hnotprev
      apply hnotprev
      have hmem : r0 ∈ (s.retryList.foldl (fun pl p => pl.remove p) prev).files := by
        rw [mem_foldl_remove]
        refine ⟨hin, fun r hr => ?_⟩
        rw [hbase]
        exact fun he2 => hnone r hr he2.symm
      simpa using hmem
  · intro hretry hrelp hrelL
    apply List.mem_append.mpr
    right
    apply List.mem_map.mpr
    refine ⟨join_path s.currentPath rel, ?_, rfl⟩
    apply List.mem_map.mpr
    refine ⟨rel, ?_, rfl⟩
    apply List.mem_filter.mpr
    refine ⟨hrelL, ?_⟩
    simp only [decide_eq_true_eq]
    intro hcontains
    have hmem : rel ∈ (s.retryList.foldl (fun pl p => pl.remove p) prev).files := by
      simpa using hcontains
    rw [mem_foldl_remove] at hmem
    exact hmem.2 p hretry (by rw [hbase]; exact hrelp.symm)

/-- C5 witness: the root `r` with snapshot `[x.mp4]`, retry entry `r/x.mp4`,
and a fresh listing still containing `x.mp4`: `Created{r/x.mp4}` is
re-emitted. -/
theorem c5_cloud_retry_reemission_witness :
    (exCloudRetry.fileList = some (⟨"r", ["x.mp4"]⟩ : ComparableFileList))
    ∧ ((⟨"r", ["x.mp4"]⟩ : ComparableFileList).basePath = "r")
    ∧ ("r/x.mp4" ∈ exCloudRetry.retryList)
    ∧ (relative_path "r" "r/x.mp4" = "x.mp4")
    ∧ ("x.mp4" ∈ ["x.mp4"])
    ∧ ((⟨ChangeType.Created, basename (join_path "r" "x.mp4"),
        join_path "r" "x.mp4", "", ""⟩ : FileChangeEvent) ∈
        (CloudWatcher.scanCloudPath exCloudRetry ["x.mp4"]).2) :=
  ⟨rfl, rfl, by decide, by decide, by decide,
   (c5_cloud_retry_reemission exCloudRetry
      ⟨"r", ["x.mp4"]⟩ ["x.mp4"] "x.mp4" "r/x.mp4" rfl rfl).2.1
     (by decide) (by decide) (by decide)⟩

/-! ## Claim C10 -/

/-- A feedback-free run over listings that all contain `rel`, started from a
committed snapshot containing `rel`, emits no event for `rel`. -/
theorem cloud_no_event_for_persistent (rel : String) :
    ∀ (ls : List (List String)) (s : CloudWatcherState) (cfl : ComparableFileList),
      s.fileList = some cfl → cfl.basePath = s.currentPath → rel ∈ cfl.files →
      s.retryList = [] → (∀ M ∈ ls, rel ∈ M) →
      ∀ e ∈ (CloudWatcher.runScans s ls).2,
        e.fullPath ≠ join_path s.currentPath rel := by
  intro ls
  induction ls with
  | nil =>
    intro s cfl _ _ _ _ _ e he
    simp [CloudWatcher.runScans] at he
  | cons M rest ih =>
    intro s cfl hsnap hbase hrel hretry hall e he
    unfold CloudWatcher.runScans at he
    simp only at he
    rcases List.mem_append.mp he with hstep | hrest
    · unfold CloudWatcher.scanCloudPath ComparableFileList.compare at hstep
      rw [hsnap, hretry] at hstep
      simp only [List.foldl_nil] at hstep
      rcases List.mem_append.mp hstep with hdel | hcre
      · rcases List.mem_map.mp hdel with ⟨q, hqmem, hq⟩
        rcases List.mem_map.mp hqmem with ⟨r0, hr0mem, hr0⟩
        intro hpath
        rw [← hq] at hpath
        simp only at hpath
        rw [← hr0, hbase] at hpath
        have hr0rel : r0 = rel := join_path_right_inj hpath
        subst hr0rel
        rcases List.mem_filter.mp hr0mem with ⟨_, hnotcur⟩
        simp only [decide_eq_true_eq] at hnotcur
        exact hnotcur (by simpa using hall M (List.mem_cons_self M rest))
      · rcases List.mem_map.mp hcre with ⟨q, hqmem, hq⟩
        rcases List.mem_map.mp hqmem with ⟨r0, hr0mem, hr0⟩
        intro hpath
        rw [← hq] at hpath
        simp only at hpath
        rw [← hr0] at hpath
        have hr0rel : r0 = rel := join_path_right_inj hpath
        subst hr0rel
        rcases List.mem_filter.mp hr0mem with ⟨_, hnotprev⟩
        simp only [decide_eq_true_eq] at hnotprev
        exact hnotprev (by simpa using hrel)
    · have hstate : (CloudWatcher.scanCloudPath s M).1 =
          { s with fileList := some ⟨s.currentPath, M⟩, retryList := [] } := by
        unfold CloudWatcher.scanCloudPath
        rw [hsnap]
      have hcur : (CloudWatcher.scanCloudPath s M).1.currentPath = s.currentPath := by
        rw [hstate]
      have hnext := ih (CloudWatcher.scanCloudPath s M).1 ⟨s.currentPath, M⟩
        (by rw [hstate]) (by rw [hstate]) (hall M (List.mem_cons_self M rest))
        (by rw [hstate]) (fun N hN => hall N (List.mem_cons_of_mem M hN)) e hrest
      rw [hcur] at hnext
      exact hnext

/-- C10: a CloudWatcher's first scan (no previous snapshot) emits no events
and only records the baseline listing; consequently a file present at the
first scan and in every later listing, never fed back, is never reported as
`Created` or `Deleted` by the watcher. -/
theorem c10_first_scan_silent (s : CloudWatcherState) (L : List String)
    (rest : List (List String)) (rel : String)
    (hinit : s.fileList = none)
    (hretry : s.retryList = [])
    (hrel : rel ∈ L)
    (hall : ∀ M ∈ rest, rel ∈ M) :
    (CloudWatcher.scanCloudPath s L).2 = []
    ∧ (CloudWatcher.scanCloudPath s L).1.fileList = some ⟨s.currentPath, L⟩
    ∧ ∀ e ∈ (CloudWatcher.runScans s (L :: rest)).2,
        e.fullPath ≠ join_path s.currentPath rel := by
  have hfirst : CloudWatcher.scanCloudPath s L =
      ({ s with fileList := some ⟨s.currentPath, L⟩ }, []) := by
    unfold CloudWatcher.scanCloudPath
    rw [hinit]
  refine ⟨by rw [hfirst], by rw [hfirst], ?_⟩
  intro e he
  unfold CloudWatcher.runScans at he
  rw [hfirst] at he
  simp only [List.nil_append] at he
  exact cloud_no_event_for_persistent rel rest
    { s with fileList := some ⟨s.currentPath, L⟩ } ⟨s.currentPath, L⟩
    rfl rfl hrel hretry hall e he

/-- C10 witness: starting from a fresh watcher on `r`, scanning `[x.mp4]`
twice yields no events at all for `x.mp4`. -/
theorem c10_first_scan_silent_witness :
    (exCloudFresh.fileList = none)
    ∧ (exCloudFresh.retryList = [])
    ∧ ("x.mp4" ∈ ["x.mp4"])
    ∧ (∀ M ∈ [["x.mp4"]], "x.mp4" ∈ M)
    ∧ ((CloudWatcher.scanCloudPath exCloudFresh ["x.mp4"]).2 = []
        ∧ (CloudWatcher.scanCloudPath exCloudFresh ["x.mp4"]).1.fileList =
          some ⟨"r", ["x.mp4"]⟩
        ∧ ∀ e ∈ (CloudWatcher.runScans exCloudFresh [["x.mp4"], ["x.mp4"]]).2,
          e.fullPath ≠ join_path "r" "x.mp4") :=
  ⟨rfl, rfl, by decide, by decide,
   c10_first_scan_silent exCloudFresh ["x.mp4"] [["x.mp4"]] "x.mp4"
     rfl rfl (by decide) (by decide)⟩

/-! ## Claim C4: startup reconciliation lemmas -/

theorem mem_storePaths_upsert (now : Nat) (m : MetaData) (rows : List MetaData)
    (p : String) :
    p ∈ storePaths (MetaDataDB.upsert now m rows) ↔ p = m.path ∨ p ∈ storePaths rows := by
  unfold MetaDataDB.upsert storePaths
  by_cases h : rows.any (fun r => r.path = m.path) = true
  · rw [if_pos h, List.map_map]
    have hcong : rows.map ((fun r => r.path) ∘ (fun r =>
        if r.path = m.path then
          { r with ext := m.ext, title := m.title, category := m.category,
                   length := m.length, date := m.date, duration := m.duration,
                   label := m.label, description := m.description,
                   mark := m.mark, rating := m.rating, flag := m.flag,
                   option := m.option, updated_at := now }
        else r)) = rows.map (fun r => r.path) := by
      apply List.map_congr_left
      intro r _
      by_cases hc : r.path = m.path
      · simp [Function.comp, hc]
      · simp [Function.comp, hc]
    rw [hcong]
    have hmem : m.path ∈ rows.map (fun r => r.path) := by
      rcases List.any_eq_true.mp h with ⟨r, hr, hrp⟩
      simp only [decide_eq_true_eq] at hrp
      exact List.mem_map.mpr ⟨r, hr, hrp⟩
    constructor
    · exact Or.inr
    · rintro (rfl | hp)
      · exact hmem
      · exact hp
  · rw [if_neg h, List.map_append]
    simp [or_comm]

theorem mem_storePaths_delete (q : String) (rows : List MetaData) (p : String) :
    p ∈ storePaths (MetaDataDB.delete q rows) ↔ p ∈ storePaths rows ∧ p ≠ q := by
  unfold MetaDataDB.delete storePaths
  constructor
  · intro hp
    rcases List.mem_map.mp hp with ⟨r, hr, rfl⟩
    rcases List.mem_filter.mp hr with ⟨hr1, hr2⟩
    simp only [decide_eq_true_eq] at hr2
    exact ⟨List.mem_map.mpr ⟨r, hr1, rfl⟩, hr2⟩
  · rintro ⟨hp, hne⟩
    rcases List.mem_map.mp hp with ⟨r, hr, rfl⟩
    exact List.mem_map.mpr ⟨r, List.mem_filter.mpr ⟨hr, by simpa using hne⟩, rfl⟩

theorem mem_storePaths_deleteFold (ps : List String) (rows : List MetaData)
    (p : String) :
    p ∈ storePaths (ps.foldl (fun s q => MetaDataDB.delete q s) rows) ↔
      p ∈ storePaths rows ∧ p ∉ ps := by
  induction ps generalizing rows with
  | nil => simp
  | cons q rest ih =>
    rw [List.foldl_cons, ih, mem_storePaths_delete]
    simp only [List.mem_cons]
    constructor
    · rintro ⟨⟨hp, hne⟩, hni⟩
      refine ⟨hp, ?_⟩
      rintro (rfl | hh)
      · exact hne rfl
      · exact hni hh
    · rintro ⟨hp, hni⟩
      exact ⟨⟨hp, fun he => hni (Or.inl he)⟩, fun hh => hni (Or.inr hh)⟩

theorem mem_storePaths_handleFileCreated (now : Nat) (file : MediaFile)
    (st : ManagerState) (p : String) :
    p ∈ storePaths (MediaFileManager.handleFileCreated now file st).store ↔
      p = file.path ∨ p ∈ storePaths st.store := by
  have h := mem_storePaths_upsert now (MediaFileManager.fileRecord file) st.store p
  rw [fileRecord_path] at h
  exact h

theorem mem_storePaths_rawFold (now : Nat) (fs : List MediaFile)
    (st : ManagerState) (p : String) :
    p ∈ storePaths ((fs.foldl
        (fun st f => MediaFileManager.handleFileCreated now f st) st).store) ↔
      p ∈ storePaths st.store ∨ p ∈ fs.map (fun f => f.path) := by
  induction fs generalizing st with
  | nil => simp
  | cons f rest ih =>
    rw [List.foldl_cons, ih, mem_storePaths_handleFileCreated]
    simp only [List.map_cons, List.mem_cons]
    tauto

theorem processEntries_spec (now : Nat) (entries : List (String × MediaFile)) :
    ∀ (ex : List String) (mg : ManagerState),
      ex.Nodup → (∀ q ∈ ex, q ∈ storePaths mg.store) →
      (∀ p, p ∈ (entries.foldl
          (fun (pr : List String × ManagerState) entry =>
            if pr.1.contains entry.2.path then (pr.1.erase entry.2.path, pr.2)
            else (pr.1, MediaFileManager.handleFileCreated now entry.2 pr.2))
          (ex, mg)).1 ↔
        p ∈ ex ∧ p ∉ entries.map (fun e => e.2.path))
      ∧ (∀ p, p ∈ storePaths (entries.foldl
          (fun (pr : List String × ManagerState) entry =>
            if pr.1.contains entry.2.path then (pr.1.erase entry.2.path, pr.2)
            else (pr.1, MediaFileManager.handleFileCreated now entry.2 pr.2))
          (ex, mg)).2.store ↔
        p ∈ storePaths mg.store ∨ p ∈ entries.map (fun e => e.2.path))
      ∧ (entries.foldl
          (fun (pr : List String × ManagerState) entry =>
            if pr.1.contains entry.2.path then (pr.1.erase entry.2.path, pr.2)
            else (pr.1, MediaFileManager.handleFileCreated now entry.2 pr.2))
          (ex, mg)).1.Nodup
      ∧ (∀ q ∈ (entries.foldl
          (fun (pr : List String × ManagerState) entry =>
            if pr.1.contains entry.2.path then (pr.1.erase entry.2.path, pr.2)
            else (pr.1, MediaFileManager.handleFileCreated now entry.2 pr.2))
          (ex, mg)).1,
        q ∈ storePaths (entries.foldl
          (fun (pr : List String × ManagerState) entry =>
            if pr.1.contains entry.2.path then (pr.1.erase entry.2.path, pr.2)
            else (pr.1, MediaFileManager.handleFileCreated now entry.2 pr.2))
          (ex, mg)).2.store) := by
  induction entries with
  | nil =>
    intro ex mg hnd hsub
    refine ⟨fun p => ?_, fun p => ?_, hnd, hsub⟩
    · simp
    · simp
  | cons e rest ih =>
    intro ex mg hnd hsub
    simp only [List.foldl_cons]
    by_cases hc : ex.contains e.2.path = true
    · have hmem : e.2.path ∈ ex := by simpa using hc
      simp only [hc, if_true]
      obtain ⟨ih1, ih2, ih3, ih4⟩ := ih (ex.erase e.2.path) mg
        (hnd.erase e.2.path)
        (fun q hq => hsub q (List.mem_of_mem_erase hq))
      refine ⟨fun p => ?_, fun p => ?_, ih3, ih4⟩
      · rw [ih1 p, hnd.mem_erase_iff]
        simp only [List.map_cons, List.mem_cons]
        constructor
        · rintro ⟨⟨hne, hp⟩, hni⟩
          refine ⟨hp, ?_⟩
          rintro (he | hh)
          · exact hne he
          · exact hni hh
        · rintro ⟨hp, hni⟩
          exact ⟨⟨fun he => hni (Or.inl he), hp⟩, fun hh => hni (Or.inr hh)⟩
      · rw [ih2 p]
        simp only [List.map_cons, List.mem_cons]
        constructor
        · rintro (hst | hr)
          · exact Or.inl hst
          · exact Or.inr (Or.inr hr)
        · rintro (hst | rfl | hr)
          · exact Or.inl hst
          · exact Or.inl (hsub _ hmem)
          · exact Or.inr hr
    · have hnotmem : e.2.path ∉ ex := by simpa using hc
      simp only [hc, Bool.false_eq_true, if_false]
      obtain ⟨ih1, ih2, ih3, ih4⟩ := ih ex (MediaFileManager.handleFileCreated now e.2 mg)
        hnd
        (fun q hq => (mem_storePaths_handleFileCreated now e.2 mg q).mpr
          (Or.inr (hsub q hq)))
      refine ⟨fun p => ?_, fun p => ?_, ih3, ih4⟩
      · rw [ih1 p]
        simp only [List.map_cons, List.mem_cons]
        constructor
        · rintro ⟨hp, hni⟩
          refine ⟨hp, ?_⟩
          rintro (rfl | hh)
          · exact hnotmem hp
          · exact hni hh
        · rintro ⟨hp, hni⟩
          exact ⟨hp, fun hh => hni (Or.inr hh)⟩
      · rw [ih2 p, mem_storePaths_handleFileCreated]
        simp only [List.map_cons, List.mem_cons]
        tauto

theorem processSource_spec (now : Nat) (src : ScannedSource) (ex : List String)
    (mg : ManagerState)
    (hnd : ex.Nodup) (hsub : ∀ q ∈ ex, q ∈ storePaths mg.store)
    (hraw : ∀ f ∈ src.rawCreated, f.path ∈ src.files.map (fun e => e.2.path)) :
    (∀ p, p ∈ (MediaFileManager.processSource now (ex, mg) src).1 ↔
        p ∈ ex ∧ p ∉ src.files.map (fun e => e.2.path))
    ∧ (∀ p, p ∈ storePaths (MediaFileManager.processSource now (ex, mg) src).2.store ↔
        p ∈ storePaths mg.store ∨ p ∈ src.files.map (fun e => e.2.path))
    ∧ (MediaFileManager.processSource now (ex, mg) src).1.Nodup
    ∧ (∀ q ∈ (MediaFileManager.processSource now (ex, mg) src).1,
        q ∈ storePaths (MediaFileManager.processSource now (ex, mg) src).2.store) := by
  obtain ⟨h1, h2, h3, h4⟩ := processEntries_spec now src.files ex
    (src.rawCreated.foldl (fun st f => MediaFileManager.handleFileCreated now f st) mg)
    hnd
    (fun q hq => (mem_storePaths_rawFold now src.rawCreated mg q).mpr
      (Or.inl (hsub q hq)))
  refine ⟨h1, fun p => ?_, h3, h4⟩
  refine Iff.trans (h2 p) ?_
  rw [mem_storePaths_rawFold]
  constructor
  · rintro ((hst | hr) | hf)
    · exact Or.inl hst
    · rcases List.mem_map.mp hr with ⟨f, hfmem, rfl⟩
      exact Or.inr (hraw f hfmem)
    · exact Or.inr hf
  · rintro (hst | hf)
    · exact Or.inl (Or.inl hst)
    · exact Or.inr hf

theorem initialize_sources_spec (now : Nat) (sources : List ScannedSource) :
    ∀ (ex : List String) (mg : ManagerState), ex.Nodup →
      (∀ q ∈ ex, q ∈ storePaths mg.store) →
      (∀ src ∈ sources, ∀ f ∈ src.rawCreated,
        f.path ∈ src.files.map (fun e => e.2.path)) →
      (∀ p, p ∈ (sources.foldl (MediaFileManager.processSource now) (ex, mg)).1 ↔
          p ∈ ex ∧ ∀ src ∈ sources, p ∉ src.files.map (fun e => e.2.path))
      ∧ (∀ p, p ∈ storePaths
            (sources.foldl (MediaFileManager.processSource now) (ex, mg)).2.store ↔
          p ∈ storePaths mg.store ∨
            ∃ src ∈ sources, p ∈ src.files.map (fun e => e.2.path))
      ∧ (sources.foldl (MediaFileManager.processSource now) (ex, mg)).1.Nodup
      ∧ (∀ q ∈ (sources.foldl (MediaFileManager.processSource now) (ex, mg)).1,
          q ∈ storePaths
            (sources.foldl (MediaFileManager.processSource now) (ex, mg)).2.store) := by
  induction sources with
  | nil =>
    intro ex mg hnd hsub _
    refine ⟨fun p => ?_, fun p => ?_, hnd, hsub⟩
    · simp
    · simp
  | cons src rest ih =>
    intro ex mg hnd hsub hraw
    simp only [List.foldl_cons]
    obtain ⟨hs1, hs2, hs3, hs4⟩ := processSource_spec now src ex mg hnd hsub
      (hraw src (List.mem_cons_self src rest))
    have hpair : MediaFileManager.processSource now (ex, mg) src =
        ((MediaFileManager.processSource now (ex, mg) src).1,
         (MediaFileManager.processSource now (ex, mg) src).2) := rfl
    rw [hpair]
    obtain ⟨ih1, ih2, ih3, ih4⟩ := ih
      (MediaFileManager.processSource now (ex, mg) src).1
      (MediaFileManager.processSource now (ex, mg) src).2
      hs3 hs4
      (fun s hs => hraw s (List.mem_cons_of_mem src hs))
    refine ⟨fun p => ?_, fun p => ?_, ih3, ih4⟩
    · rw [ih1 p, hs1 p, List.forall_mem_cons]
      tauto
    · rw [ih2 p, hs2 p]
      constructor
      · rintro ((hst | hsrc) | ⟨s, hs, hp⟩)
        · exact Or.inl hst
        · exact Or.inr ⟨src, List.mem_cons_self src rest, hsrc⟩
        · exact Or.inr ⟨s, List.mem_cons_of_mem src hs, hp⟩
      · rintro (hst | ⟨s, hs, hp⟩)
        · exact Or.inl (Or.inl hst)
        · rcases List.mem_cons.mp hs with rfl | hs'
          · exact Or.inl (Or.inr hp)
          · exact Or.inr ⟨s, hs', hp⟩

/-- C4: after `initialize` completes, the set of paths stored in the
metadata store equals the union of the files keys of all sources: every
file a scan found has a record, and every pre-existing record whose path no
scan found has been deleted. Hypotheses: store paths are unique (the
`UNIQUE` column constraint), keys equal the cached file's path (the map
invariant), and raw-import events during a scan concern files the scan
retains. -/
theorem c4_startup_reconciliation (now : Nat) (store0 : List MetaData)
    (sources : List ScannedSource)
    (hnodup : (store0.map (fun r => r.path)).Nodup)
    (hkv : ∀ src ∈ sources, ∀ e ∈ src.files, e.1 = e.2.path)
    (hraw : ∀ src ∈ sources, ∀ f ∈ src.rawCreated,
      f.path ∈ src.files.map (fun e => e.2.path)) :
    ∀ p, p ∈ storePaths (MediaFileManager.initializeStartup now store0 sources).store ↔
      ∃ src ∈ sources, p ∈ src.files.map (fun e => e.1) := by
  intro p
  have hmaps : ∀ src ∈ sources,
      src.files.map (fun e => e.2.path) = src.files.map (fun e => e.1) :=
    fun src hsrc =>
      List.map_congr_left (fun e he => (hkv src hsrc e he).symm)
  unfold MediaFileManager.initializeStartup
  simp only
  rw [mem_storePaths_deleteFold]
  have hsub0 : ∀ q ∈ store0.map (fun r => r.path),
      q ∈ storePaths (⟨store0, 0⟩ : ManagerState).store :=
    fun q hq => hq
  obtain ⟨h1, h2, _, _⟩ := initialize_sources_spec now sources
    (store0.map (fun r => r.path)) ⟨store0, 0⟩ hnodup hsub0 hraw
  rw [h2 p, h1 p]
  constructor
  · rintro ⟨hor, hnot⟩
    rcases hor with hst | ⟨src, hsrc, hmem⟩
    · by_contra hno
      apply hnot
      refine ⟨hst, fun src hsrc hmem => hno ⟨src, hsrc, ?_⟩⟩
      rw [← hmaps src hsrc]
      exact hmem
    · exact ⟨src, hsrc, by rw [← hmaps src hsrc]; exact hmem⟩
  · rintro ⟨src, hsrc, hmem⟩
    have hmem' : p ∈ src.files.map (fun e => e.2.path) := by
      rw [hmaps src hsrc]
      exact hmem
    refine ⟨Or.inr ⟨src, hsrc, hmem'⟩, ?_⟩
    rintro ⟨_, hallnot⟩
    exact hallnot src hsrc hmem'

/-- C4 witness: a store holding `exRecord` and a stale record, one source
that found `exRecord`'s file plus a new one: the final store paths are
exactly the scan's keys. -/
theorem c4_startup_reconciliation_witness :
    (([exRecord, exRecordStale].map (fun r => r.path)).Nodup)
    ∧ (∀ src ∈ [exScanned], ∀ e ∈ src.files, e.1 = e.2.path)
    ∧ (∀ src ∈ [exScanned], ∀ f ∈ src.rawCreated,
        f.path ∈ src.files.map (fun e => e.2.path))
    ∧ ("m/b.mp4" ∈ storePaths
          (MediaFileManager.initializeStartup 99 [exRecord, exRecordStale] [exScanned]).store ↔
        ∃ src ∈ [exScanned], "m/b.mp4" ∈ src.files.map (fun e => e.1)) :=
  ⟨by decide, by decide, by decide,
   c4_startup_reconciliation 99 [exRecord, exRecordStale] [exScanned]
     (by decide) (by decide) (by decide) "m/b.mp4"⟩

end BooServer
